import Mathlib

/-!
Verification of the rommelmarkt-zoeker scraper against its specification.

Shallow embedding conventions:
* Python strings are modelled as `List Char`; the modelled character domain is
  ASCII (the Unicode-decimal-digit and Unicode-whitespace acceptance of some
  Python primitives is outside the modelled alphabet).
* Python `str` results whose characters may be lone surrogates (`chr` accepts
  any code point below 0x110000) are modelled as `List Int` of character codes.
* Fallible Python code (`try`/`except` returning `None`) is modelled with
  `Option`; an uncaught-exception-free total function is a total Lean function.
* Machine integers are `Nat`/`Int`; Python's arbitrary-precision ints need no
  modular arithmetic.
-/

/-! ## Shared character helpers -/

/-- ASCII lower-casing of one character (models `str.lower` on the ASCII range). -/
def lowerChar (c : Char) : Char :=
  if 'A' ≤ c ∧ c ≤ 'Z' then Char.ofNat (c.toNat + 32) else c

/-- ASCII upper-casing of one character (models `str.upper` on the ASCII range). -/
def upperChar (c : Char) : Char :=
  if 'a' ≤ c ∧ c ≤ 'z' then Char.ofNat (c.toNat - 32) else c

/-- ASCII letter test (the cased characters of the modelled alphabet). -/
def isAsciiAlpha (c : Char) : Bool :=
  ('a' ≤ c && c ≤ 'z') || ('A' ≤ c && c ≤ 'Z')

/-- Numeric value of the digits accumulated left to right, as Python
`int(digit_string)` computes it for an ASCII digit string. -/
def digitsToNat (ds : List Char) : Nat :=
  ds.foldl (fun a c => 10 * a + (c.toNat - 48)) 0

/-! ## Obfuscation decoder — src/src/scraper/email_decoder.py

`decode_cloudflare_email` parses the first two characters as a hexadecimal
XOR key with Python `int(s, 16)`, then walks the remainder in steps of two,
parsing each slice `encoded_string[i:i+2]` (the final slice may be a single
character) as a byte, XORing with the key and emitting `chr` of the result;
`ValueError`/`IndexError` anywhere yields `None`. -/

/-- Value of one hexadecimal digit character, `none` for a non-hex character. -/
def hexVal (c : Char) : Option Nat :=
  if '0' ≤ c ∧ c ≤ '9' then some (c.toNat - 48)
  else if 'a' ≤ c ∧ c ≤ 'f' then some (c.toNat - 87)
  else if 'A' ≤ c ∧ c ≤ 'F' then some (c.toNat - 55)
  else none

/-- Accumulating parse of a run of hex digits; fails on the first non-digit. -/
def parseHexGo (acc : Nat) : List Char → Option Nat
  | [] => some acc
  | c :: cs =>
    match hexVal c with
    | some v => parseHexGo (16 * acc + v) cs
    | none => none

/-- Parse of a non-empty run of hex digits (the digit part of `int(s, 16)`). -/
def parseHexDigits : List Char → Option Nat
  | [] => none
  | c :: cs => parseHexGo 0 (c :: cs)

/-- Characters stripped by Python `int()` before parsing (ASCII whitespace;
Unicode spaces are outside the modelled alphabet). -/
def isPySpace (c : Char) : Bool :=
  c == ' ' || c == '\t' || c == '\n' || c == '\r' || c == '\x0b' || c == '\x0c'

/-- Strip leading and trailing whitespace, as `int()` does before parsing. -/
def stripBoth (l : List Char) : List Char :=
  ((l.dropWhile isPySpace).reverse.dropWhile isPySpace).reverse

/-- Python `int(s, 16)` restricted to the at-most-two-character slices the
decoder takes: optional surrounding whitespace, an optional single sign, then
a non-empty run of hex digits.  (A `0x` marker needs a following digit and
hence at least three characters, so it cannot occur in these slices.) -/
def pyIntHex (s : List Char) : Option Int :=
  match stripBoth s with
  | [] => none
  | c :: r =>
    if c = '+' then (parseHexDigits r).map Int.ofNat
    else if c = '-' then (parseHexDigits r).map (fun n => -(Int.ofNat n))
    else (parseHexDigits (c :: r)).map Int.ofNat

/-- Bitwise XOR on Python's arbitrary-precision two's-complement integers. -/
def pyXor : Int → Int → Int
  | Int.ofNat m, Int.ofNat n => Int.ofNat (m ^^^ n)
  | Int.ofNat m, Int.negSucc n => Int.negSucc (m ^^^ n)
  | Int.negSucc m, Int.ofNat n => Int.negSucc (m ^^^ n)
  | Int.negSucc m, Int.negSucc n => Int.ofNat (m ^^^ n)

/-- Python `chr` accepts exactly the codes in `[0, 0x110000)`. -/
def chrOk (code : Int) : Bool := 0 ≤ code && code < 1114112

/-- Decoding loop over the remaining slices (`for i in range(2, len, 2)`):
each slice of up to two characters is parsed as a byte, XORed with the key,
and `chr`'d; a parse failure or an invalid `chr` argument raises and makes
the whole call return `None`. -/
def decodeLoop (key : Int) : List Char → Option (List Int)
  | [] => some []
  | [c] =>
    match pyIntHex [c] with
    | none => none
    | some b =>
      let code := pyXor b key
      if chrOk code then some [code] else none
  | c1 :: c2 :: rest =>
    match pyIntHex [c1, c2] with
    | none => none
    | some b =>
      let code := pyXor b key
      if chrOk code then (decodeLoop key rest).map (fun l => code :: l) else none

/-- Model of `decode_cloudflare_email`: empty input returns `None`; otherwise
`encoded_string[:2]` (one character if the input has length one) is parsed as
the key and the remainder is decoded pairwise.  The decoded Python string is
represented by its list of character codes. -/
def decode_cloudflare_email (s : List Char) : Option (List Int) :=
  match s with
  | [] => none
  | [c] =>
    match pyIntHex [c] with
    | none => none
    | some key => decodeLoop key []
  | c1 :: c2 :: rest =>
    match pyIntHex [c1, c2] with
    | none => none
    | some key => decodeLoop key rest

/-- Lower-case hex digit character for a value below 16. -/
def hexDigitChar (n : Nat) : Char :=
  if n < 10 then Char.ofNat (48 + n) else Char.ofNat (87 + n)

/-- Two-digit lower-case hex rendering of a byte. -/
def toHex2 (n : Nat) : List Char := [hexDigitChar (n / 16), hexDigitChar (n % 16)]

/-- Modelled from the spec: the XOR-encoding scheme
`hex(k) + concat(hex(byte ^ k) for byte in plaintext)` whose reversal the
decoder is claimed to be, with each `hex` rendered as one two-character pair. -/
def encodeScheme (key : Nat) (pt : List Nat) : List Char :=
  toHex2 key ++ (pt.map (fun b => toHex2 (b ^^^ key))).flatten

/-- Characters that can take part in a successful `int(s, 16)` parse of a
decoder slice: hex digits, strippable whitespace, and the two sign marks. -/
def hexLike (c : Char) : Bool :=
  (hexVal c).isSome || isPySpace c || c == '+' || c == '-'

/-! ## Lemmas about the decoder -/

/-- A hex digit character rendered by `hexDigitChar` parses back to its value. -/
theorem hexVal_hexDigitChar (n : Nat) (h : n < 16) : hexVal (hexDigitChar n) = some n := by
  interval_cases n <;> decide

/-- Rendered hex digit characters are not whitespace and not sign marks. -/
theorem hexDigitChar_plain (n : Nat) (h : n < 16) :
    isPySpace (hexDigitChar n) = false ∧ hexDigitChar n ≠ '+' ∧ hexDigitChar n ≠ '-' := by
  interval_cases n <;> exact ⟨rfl, by decide, by decide⟩

/-- A two-digit hex rendering of a byte parses back to the byte. -/
theorem pyIntHex_toHex2 (n : Nat) (h : n < 256) :
    pyIntHex (toHex2 n) = some (n : Int) := by
  have h1 : n / 16 < 16 := by omega
  have h2 : n % 16 < 16 := Nat.mod_lt _ (by norm_num)
  obtain ⟨s1, p1, m1⟩ := hexDigitChar_plain (n / 16) h1
  obtain ⟨s2, _, _⟩ := hexDigitChar_plain (n % 16) h2
  have hstrip : stripBoth [hexDigitChar (n / 16), hexDigitChar (n % 16)]
      = [hexDigitChar (n / 16), hexDigitChar (n % 16)] := by
    simp [stripBoth, List.dropWhile, s1, s2]
  have hparse : parseHexDigits [hexDigitChar (n / 16), hexDigitChar (n % 16)] = some n := by
    simp [parseHexDigits, parseHexGo, hexVal_hexDigitChar _ h1, hexVal_hexDigitChar _ h2]
    omega
  show pyIntHex [hexDigitChar (n / 16), hexDigitChar (n % 16)] = some (n : Int)
  simp only [pyIntHex, hstrip]
  rw [if_neg p1, if_neg m1, hparse]
  rfl

/-- Decoding the encoded payload recovers the plaintext bytes. -/
theorem decodeLoop_encodeScheme (key : Nat) (hk : key < 256) :
    ∀ pt : List Nat, (∀ b ∈ pt, b < 256) →
      decodeLoop (key : Int) ((pt.map (fun b => toHex2 (b ^^^ key))).flatten) =
        some (pt.map (fun b => (b : Int))) := by
  intro pt
  induction pt with
  | nil => intro _; simp [decodeLoop]
  | cons b pt ih =>
    intro hb
    have hblt : b < 256 := hb b (List.mem_cons_self _ _)
    have hxor : b ^^^ key < 256 := by
      have : b ^^^ key < 2 ^ 8 := Nat.xor_lt_two_pow (by omega) (by omega)
      omega
    have hrest := ih (fun x hx => hb x (List.mem_cons_of_mem _ hx))
    have hpair : pyIntHex [hexDigitChar ((b ^^^ key) / 16), hexDigitChar ((b ^^^ key) % 16)]
        = some ((b ^^^ key : Nat) : Int) := pyIntHex_toHex2 _ hxor
    have hxk : pyXor ((b ^^^ key : Nat) : Int) (key : Int) = (b : Int) := by
      have h' : pyXor (Int.ofNat (b ^^^ key)) (Int.ofNat key) = Int.ofNat b := by
        simp [pyXor, Nat.xor_cancel_right]
      exact h'
    have hchr : chrOk (b : Int) = true := by
      simp [chrOk]
      omega
    show decodeLoop (key : Int)
      (hexDigitChar ((b ^^^ key) / 16) :: hexDigitChar ((b ^^^ key) % 16) ::
        (pt.map (fun b => toHex2 (b ^^^ key))).flatten) = _
    simp [decodeLoop, hpair, hxk, hchr, hrest]

/-- Claim C2: the obfuscation decoder is a left inverse of the XOR-encoding
scheme: for every single-byte key and every byte sequence, decoding
`hex(k) + concat(hex(byte ^ k))` returns exactly the plaintext byte sequence
(as the decoded characters' codes). -/
theorem C2_decode_left_inverse (key : Nat) (pt : List Nat)
    (hk : key < 256) (hpt : ∀ b ∈ pt, b < 256) :
    decode_cloudflare_email (encodeScheme key pt) = some (pt.map (fun b => (b : Int))) := by
  have hkey : pyIntHex [hexDigitChar (key / 16), hexDigitChar (key % 16)]
      = some (key : Int) := pyIntHex_toHex2 _ hk
  show decode_cloudflare_email
    (hexDigitChar (key / 16) :: hexDigitChar (key % 16) ::
      (pt.map (fun b => toHex2 (b ^^^ key))).flatten) = _
  simp [decode_cloudflare_email, hkey, decodeLoop_encodeScheme key hk pt hpt]

/-- Witness for C2 at key 11 and plaintext bytes "he". -/
theorem C2_decode_left_inverse_witness :
    decode_cloudflare_email (encodeScheme 11 [104, 101]) =
      some ([104, 101].map (fun b => (b : Int))) :=
  C2_decode_left_inverse 11 [104, 101] (by decide) (by decide)

/-- Claim C3, counterexample: the odd-length hex input `"abc"` is not
rejected by the decoder.  The key is `0xab` and the trailing lone character
`'c'` is parsed by `int("c", 16)` as the single-digit value 12, so the call
returns the one-character string with code `12 ^^^ 0xab = 167` instead of
`None`. -/
theorem C3_odd_length_counterexample :
    decode_cloudflare_email "abc".data = some [167] ∧
      decode_cloudflare_email "abc".data ≠ none := by
  constructor
  · decide
  · decide

/-- Membership survives `dropWhile` for an element the predicate rejects. -/
theorem mem_dropWhile_of_not {c : Char} {p : Char → Bool} (hp : p c = false) :
    ∀ l : List Char, c ∈ l → c ∈ l.dropWhile p := by
  intro l
  induction l with
  | nil => intro h; cases h
  | cons d t ih =>
    intro h
    by_cases hd : p d = true
    · rw [List.dropWhile_cons_of_pos hd]
      rcases List.mem_cons.mp h with h1 | h2
      · subst h1; rw [hd] at hp; cases hp
      · exact ih h2
    · rw [List.dropWhile_cons_of_neg hd]
      exact h

/-- A non-whitespace member of a slice survives the whitespace stripping. -/
theorem mem_stripBoth {c : Char} {l : List Char} (hm : c ∈ l)
    (hs : isPySpace c = false) : c ∈ stripBoth l := by
  unfold stripBoth
  rw [List.mem_reverse]
  exact mem_dropWhile_of_not hs _ (by
    rw [List.mem_reverse]
    exact mem_dropWhile_of_not hs _ hm)

/-- A non-hex character anywhere in the digit run makes the parse fail. -/
theorem parseHexGo_none {c : Char} (hc : hexVal c = none) :
    ∀ (l : List Char) (acc : Nat), c ∈ l → parseHexGo acc l = none := by
  intro l
  induction l with
  | nil => intro acc h; cases h
  | cons d t ih =>
    intro acc h
    rcases List.mem_cons.mp h with h1 | h2
    · subst h1
      simp [parseHexGo, hc]
    · simp only [parseHexGo]
      cases hexVal d with
      | none => rfl
      | some v => exact ih _ h2

/-- A non-hex character anywhere in the digit run makes the parse fail. -/
theorem parseHexDigits_none {c : Char} {l : List Char} (hm : c ∈ l)
    (hc : hexVal c = none) : parseHexDigits l = none := by
  cases l with
  | nil => rfl
  | cons d t => exact parseHexGo_none hc _ _ hm

/-- A slice containing a character that can play no role in a hex numeral
(not a digit, not strippable whitespace, not a sign) fails to parse. -/
theorem pyIntHex_bad {c : Char} {s : List Char} (hm : c ∈ s)
    (hb : hexLike c = false) : pyIntHex s = none := by
  have hval : hexVal c = none := by
    cases hv : hexVal c with
    | none => rfl
    | some v => rw [hexLike, hv] at hb; simp at hb
  have hsp : isPySpace c = false := by
    cases hv : isPySpace c
    · rfl
    · rw [hexLike, hv] at hb; simp at hb
  have hplus : c ≠ '+' := by
    intro h; subst h; simp [hexLike] at hb
  have hminus : c ≠ '-' := by
    intro h; subst h; simp [hexLike] at hb
  have hmem : c ∈ stripBoth s := mem_stripBoth hm hsp
  cases ht : stripBoth s with
  | nil => rw [ht] at hmem; cases hmem
  | cons d r =>
    rw [ht] at hmem
    simp only [pyIntHex, ht]
    by_cases hd1 : d = '+'
    · subst hd1
      rw [if_pos rfl]
      have hr : c ∈ r := by
        rcases List.mem_cons.mp hmem with h1 | h2
        · exact absurd h1 hplus
        · exact h2
      rw [parseHexDigits_none hr hval]
      rfl
    · rw [if_neg hd1]
      by_cases hd2 : d = '-'
      · subst hd2
        rw [if_pos rfl]
        have hr : c ∈ r := by
          rcases List.mem_cons.mp hmem with h1 | h2
          · exact absurd h1 hminus
          · exact h2
        rw [parseHexDigits_none hr hval]
        rfl
      · rw [if_neg hd2]
        rw [parseHexDigits_none hmem hval]
        rfl

/-- A character that cannot take part in a hex parse poisons the whole
decoding loop: its slice fails and the failure propagates to the result. -/
theorem decodeLoop_bad {c : Char} (hb : hexLike c = false) :
    ∀ (key : Int) (rest : List Char), c ∈ rest → decodeLoop key rest = none := by
  have H : ∀ (n : Nat) (key : Int) (rest : List Char), rest.length ≤ n → c ∈ rest →
      decodeLoop key rest = none := by
    intro n
    induction n with
    | zero =>
      intro key rest hlen hmem
      cases rest with
      | nil => cases hmem
      | cons d t => simp at hlen
    | succ n ih =>
      intro key rest hlen hmem
      match rest with
      | [] => cases hmem
      | [d] =>
        have : c = d := by
          rcases List.mem_cons.mp hmem with h1 | h2
          · exact h1
          · cases h2
        subst this
        rw [decodeLoop, pyIntHex_bad (List.mem_singleton_self c) hb]
      | d1 :: d2 :: rs =>
        rcases List.mem_cons.mp hmem with h1 | hmem2
        · subst h1
          rw [decodeLoop, pyIntHex_bad (List.mem_cons_self _ _) hb]
        · rcases List.mem_cons.mp hmem2 with h2 | h3
          · subst h2
            rw [decodeLoop,
              pyIntHex_bad (List.mem_cons_of_mem _ (List.mem_cons_self _ _)) hb]
          · rw [decodeLoop]
            cases hp : pyIntHex [d1, d2] with
            | none => rfl
            | some b =>
              simp only []
              have hrec : decodeLoop key rs = none := by
                apply ih key rs _ h3
                simp at hlen
                omega
              rw [hrec]
              cases chrOk (pyXor b key) <;> rfl
  exact fun key rest => H rest.length key rest le_rfl

/-- Claim C3 as amended: the decoder returns `None` (rather than raising) on
any input containing a character that cannot take part in a hexadecimal
numeral — in particular on any input with a letter outside the hex range —
but it does **not** reject odd-length hex input: the final lone hex digit is
parsed as a one-digit byte value, so `"abc"` decodes to the single character
code `0x0c ^^^ 0xab = 167`. -/
theorem C3_malformed_amended :
    (∀ (s : List Char) (c : Char), c ∈ s → hexLike c = false →
        decode_cloudflare_email s = none) ∧
      decode_cloudflare_email "abc".data = some [167] := by
  constructor
  · intro s c hm hb
    match s with
    | [] => cases hm
    | [d] =>
      have : c = d := by
        rcases List.mem_cons.mp hm with h1 | h2
        · exact h1
        · cases h2
      subst this
      rw [decode_cloudflare_email, pyIntHex_bad (List.mem_singleton_self c) hb]
    | d1 :: d2 :: rs =>
      rcases List.mem_cons.mp hm with h1 | hm2
      · subst h1
        rw [decode_cloudflare_email, pyIntHex_bad (List.mem_cons_self _ _) hb]
      · rcases List.mem_cons.mp hm2 with h2 | h3
        · subst h2
          rw [decode_cloudflare_email,
            pyIntHex_bad (List.mem_cons_of_mem _ (List.mem_cons_self _ _)) hb]
        · rw [decode_cloudflare_email]
          cases hp : pyIntHex [d1, d2] with
          | none => rfl
          | some key => exact decodeLoop_bad hb key rs h3
  · decide

/-- Witness for the amended C3: the input `"zz"` contains the non-hex
character `'z'` and decodes to `None`. -/
theorem C3_malformed_amended_witness :
    decode_cloudflare_email "zz".data = none :=
  C3_malformed_amended.1 "zz".data 'z' (by decide) (by decide)

/-! ## Listing discovery — src/src/scraper/listing_scraper.py

`scrape_listing_page` fetches one listing page, collects every `<a>` tag
whose `href` is matched (searched) by `EVENT_LINK_PATTERN =
re.compile(r'/rommelmarkt/(\d+)/(.+)')`, re-applies the pattern anchored
(`pattern.match(href)`), extracts `(id, slug)`, makes the URL absolute when
the href starts with `'/'`, and finally deduplicates by id keeping first
occurrences.  The fetched page is modelled by the document-order list of its
anchor `href` strings; `\d` and `.` are modelled over the ASCII alphabet. -/

/-- Candidate link produced by discovery (`EventLink` dataclass). -/
structure EventLink where
  id : Nat
  slug : List Char
  url : List Char
deriving DecidableEq, Repr

/-- Literal part of `EVENT_LINK_PATTERN`. -/
def eventRoute : List Char := "/rommelmarkt/".data

/-- Peel a literal off the front of a string, or fail. -/
def dropLit : List Char → List Char → Option (List Char)
  | [], s => some s
  | _ :: _, [] => none
  | p :: ps, c :: cs => if c = p then dropLit ps cs else none

/-- Anchored `EVENT_LINK_PATTERN.match(href)`: the href must begin with
`/rommelmarkt/`, then one or more digits (greedy `\d+`; fewer digits would
put a digit where the following literal `/` is required, so the maximal run
is exact), then `/`, then `(.+)`: at least one character, the capture running
to the first newline or the end. -/
def matchEvent (l : List Char) : Option (Nat × List Char) :=
  match dropLit eventRoute l with
  | none => none
  | some r =>
    match r.takeWhile Char.isDigit, r.dropWhile Char.isDigit with
    | [], _ => none
    | ds, '/' :: rest =>
      match rest.takeWhile (fun c => c != '\n') with
      | [] => none
      | slug => some (digitsToNat ds, slug)
    | _, _ => none

/-- Unanchored `EVENT_LINK_PATTERN.search(href)` as used by the
`soup.find_all('a', href=EVENT_LINK_PATTERN)` attribute filter: the anchored
match succeeds at some start position. -/
def searchEvent : List Char → Bool
  | [] => (matchEvent []).isSome
  | c :: t => (matchEvent (c :: t)).isSome || searchEvent t

/-- Python `href.startswith('/')`. -/
def hrefIsRel : List Char → Bool
  | '/' :: _ => true
  | _ => false

/-- Per-anchor body of the discovery loop: the tag passed the `find_all`
search filter; the anchored match then extracts id and slug, and the full
URL is `base_url + href` for a relative href, the href itself otherwise. -/
def processHref (base href : List Char) : Option EventLink :=
  if searchEvent href then
    match matchEvent href with
    | some p => some ⟨p.1, p.2, if hrefIsRel href then base ++ href else href⟩
    | none => none
  else none

/-- Candidate list before deduplication (the `event_links` accumulator). -/
def preLinks (base : List Char) (hrefs : List (List Char)) : List EventLink :=
  hrefs.filterMap (processHref base)

/-- Deduplication loop: `seen_ids` set plus first-occurrence accumulation. -/
def dedupLinksGo (seen : List Nat) : List EventLink → List EventLink
  | [] => []
  | l :: ls =>
    if seen.contains l.id then dedupLinksGo seen ls
    else l :: dedupLinksGo (l.id :: seen) ls

/-- Model of `scrape_listing_page` from the fetched page's anchor hrefs. -/
def scrapeListingLinks (base : List Char) (hrefs : List (List Char)) : List EventLink :=
  dedupLinksGo [] (preLinks base hrefs)

/-- Base URL constant used by the scrapers (`config` default). -/
def baseRMB : List Char := "https://www.rommelmarkten.be".data

/-! ## Lemmas about listing discovery -/

/-- Elements kept by the deduplication loop were not in the seen set. -/
theorem dedup_mem_not_seen :
    ∀ (ls : List EventLink) (seen : List Nat) (l : EventLink),
      l ∈ dedupLinksGo seen ls → seen.contains l.id = false := by
  intro ls
  induction ls with
  | nil => intro seen l h; simp [dedupLinksGo] at h
  | cons x t ih =>
    intro seen l h
    rw [dedupLinksGo] at h
    by_cases hx : seen.contains x.id = true
    · rw [if_pos hx] at h
      exact ih seen l h
    · rw [if_neg hx] at h
      rcases List.mem_cons.mp h with h1 | h2
      · subst h1
        simpa using hx
      · have h3 := ih (x.id :: seen) l h2
        rw [List.contains_cons] at h3
        exact (Bool.or_eq_false_iff.mp h3).2

/-- The ids of the deduplicated output are pairwise distinct. -/
theorem dedup_ids_nodup :
    ∀ (ls : List EventLink) (seen : List Nat),
      ((dedupLinksGo seen ls).map EventLink.id).Nodup := by
  intro ls
  induction ls with
  | nil => intro seen; simp [dedupLinksGo]
  | cons x t ih =>
    intro seen
    rw [dedupLinksGo]
    by_cases hx : seen.contains x.id = true
    · rw [if_pos hx]; exact ih seen
    · rw [if_neg hx]
      simp only [List.map_cons, List.nodup_cons]
      refine ⟨?_, ih _⟩
      intro hmem
      rcases List.mem_map.mp hmem with ⟨y, hy, hyid⟩
      have h3 := dedup_mem_not_seen t (x.id :: seen) y hy
      rw [List.contains_cons, hyid] at h3
      simp at h3

/-- The deduplicated output is a sublist of the pre-deduplication candidates
(first-occurrence order is preserved, nothing is fabricated). -/
theorem dedup_sublist :
    ∀ (ls : List EventLink) (seen : List Nat), (dedupLinksGo seen ls).Sublist ls := by
  intro ls
  induction ls with
  | nil => intro seen; simp [dedupLinksGo]
  | cons x t ih =>
    intro seen
    rw [dedupLinksGo]
    by_cases hx : seen.contains x.id = true
    · rw [if_pos hx]
      exact (ih seen).trans (List.sublist_cons_self x t)
    · rw [if_neg hx]
      exact (ih _).cons₂ x

/-- An id occurs in the deduplicated output iff it occurs among the inputs
and was not already seen. -/
theorem dedup_mem_ids :
    ∀ (ls : List EventLink) (seen : List Nat) (i : Nat),
      (i ∈ (dedupLinksGo seen ls).map EventLink.id) ↔
        (i ∈ ls.map EventLink.id ∧ seen.contains i = false) := by
  intro ls
  induction ls with
  | nil => intro seen i; simp [dedupLinksGo]
  | cons x t ih =>
    intro seen i
    rw [dedupLinksGo]
    by_cases hx : seen.contains x.id = true
    · rw [if_pos hx, ih seen i]
      simp only [List.map_cons, List.mem_cons]
      constructor
      · rintro ⟨h1, h2⟩
        exact ⟨Or.inr h1, h2⟩
      · rintro ⟨h1 | h1, h2⟩
        · subst h1
          rw [h2] at hx
          cases hx
        · exact ⟨h1, h2⟩
    · rw [if_neg hx]
      simp only [List.map_cons, List.mem_cons]
      rw [ih (x.id :: seen) i]
      constructor
      · rintro (h1 | ⟨h1, h2⟩)
        · subst h1
          exact ⟨Or.inl rfl, by simpa using hx⟩
        · rw [List.contains_cons] at h2
          exact ⟨Or.inr h1, (Bool.or_eq_false_iff.mp h2).2⟩
      · rintro ⟨h1 | h1, h2⟩
        · subst h1
          exact Or.inl rfl
        · by_cases hix : i = x.id
          · exact Or.inl hix
          · refine Or.inr ⟨h1, ?_⟩
            rw [List.contains_cons, Bool.or_eq_false_iff]
            exact ⟨by simp [hix], h2⟩

/-- Claim C6: discovery deduplicates — for every fetched listing page the
output has each event id exactly once (`Nodup` ids), is a first-occurrence
subsequence of all matched links, keeps exactly the discovered ids, and on
the spec's example page (three links to id 42 first, one link to id 7) it
yields exactly the two candidates with ids `[42, 7]` in that order, keeping
the first id-42 link. -/
theorem C6_discovery_dedup :
    (∀ (base : List Char) (hrefs : List (List Char)),
        ((scrapeListingLinks base hrefs).map EventLink.id).Nodup) ∧
      (∀ (base : List Char) (hrefs : List (List Char)),
        (scrapeListingLinks base hrefs).Sublist (preLinks base hrefs)) ∧
      (∀ (base : List Char) (hrefs : List (List Char)) (i : Nat),
        i ∈ (scrapeListingLinks base hrefs).map EventLink.id ↔
          i ∈ (preLinks base hrefs).map EventLink.id) ∧
      scrapeListingLinks baseRMB
          ["/rommelmarkt/42/a".data, "/rommelmarkt/42/b".data,
           "/rommelmarkt/42/c".data, "/rommelmarkt/7/x".data] =
        [⟨42, "a".data, "https://www.rommelmarkten.be/rommelmarkt/42/a".data⟩,
         ⟨7, "x".data, "https://www.rommelmarkten.be/rommelmarkt/7/x".data⟩] := by
  refine ⟨fun base hrefs => dedup_ids_nodup _ _,
    fun base hrefs => dedup_sublist _ _,
    fun base hrefs i => ?_, by decide⟩
  rw [scrapeListingLinks, dedup_mem_ids]
  simp [List.contains]

/-- Claim C7, counterexample: an anchor whose href gives the detail-page
shape as an absolute URL passes the `find_all` search filter (the pattern is
found inside the href) but is rejected by the anchored `pattern.match`, which
requires the href to begin with `/rommelmarkt/`; no candidate is produced,
contradicting "whether the href is site-relative or an absolute URL". -/
theorem C7_absolute_href_counterexample :
    searchEvent "https://www.rommelmarkten.be/rommelmarkt/42/foo".data = true ∧
      scrapeListingLinks baseRMB
        ["https://www.rommelmarkten.be/rommelmarkt/42/foo".data] = [] := by
  constructor
  · decide
  · decide

/-- Peeling a literal off a string that starts with it leaves the remainder. -/
theorem dropLit_append : ∀ pre s : List Char, dropLit pre (pre ++ s) = some s := by
  intro pre
  induction pre with
  | nil => intro s; rfl
  | cons p ps ih => intro s; simp [dropLit, ih]

/-- A successful literal peel means the string starts with the literal. -/
theorem dropLit_eq_some :
    ∀ pre s r : List Char, dropLit pre s = some r → s = pre ++ r := by
  intro pre
  induction pre with
  | nil =>
    intro s r h
    cases h
    rfl
  | cons p ps ih =>
    intro s r h
    cases s with
    | nil => cases h
    | cons c cs =>
      rw [dropLit] at h
      by_cases hc : c = p
      · rw [if_pos hc] at h
        rw [hc, List.cons_append, ih cs r h]
      · rw [if_neg hc] at h
        cases h

/-- Splitting `takeWhile`/`dropWhile` around the first rejected character. -/
theorem takeWhile_append_all (p : Char → Bool) :
    ∀ (ds : List Char) (y : Char) (rest : List Char),
      (∀ c ∈ ds, p c = true) → p y = false →
        (ds ++ y :: rest).takeWhile p = ds ∧ (ds ++ y :: rest).dropWhile p = y :: rest := by
  intro ds
  induction ds with
  | nil =>
    intro y rest _ hy
    constructor
    · simp [List.takeWhile_cons, hy]
    · simp [List.dropWhile_cons, hy]
  | cons d dt ih =>
    intro y rest hall hy
    have hd : p d = true := hall d (List.mem_cons_self _ _)
    obtain ⟨h1, h2⟩ := ih y rest (fun c hc => hall c (List.mem_cons_of_mem _ hc)) hy
    constructor
    · rw [List.cons_append, List.takeWhile_cons_of_pos hd, h1]
    · rw [List.cons_append, List.dropWhile_cons_of_pos hd, h2]

/-- The anchored pattern on a well-shaped site-relative href extracts the
digit run as the id and the non-newline run after the second slash as slug. -/
theorem matchEvent_rel (ds : List Char) (c : Char) (cs : List Char)
    (hds : ∀ ch ∈ ds, ch.isDigit = true) (hne : ds ≠ []) (hc : (c != '\n') = true) :
    matchEvent (eventRoute ++ (ds ++ '/' :: c :: cs)) =
      some (digitsToNat ds, c :: cs.takeWhile (fun x => x != '\n')) := by
  obtain ⟨ht, hd⟩ := takeWhile_append_all Char.isDigit ds '/' (c :: cs) hds (by decide)
  rw [matchEvent, dropLit_append]
  cases ds with
  | nil => exact absurd rfl hne
  | cons d dt =>
    simp only [ht, hd, List.takeWhile_cons, hc]
    rfl

/-- A successful anchored match forces the href to begin with a slash. -/
theorem matchEvent_rel_href {l : List Char} {p : Nat × List Char}
    (h : matchEvent l = some p) : hrefIsRel l = true := by
  rw [matchEvent] at h
  cases hd : dropLit eventRoute l with
  | none => rw [hd] at h; cases h
  | some r =>
    rw [dropLit_eq_some eventRoute l r hd]
    rfl

/-- A successful anchored match makes the search filter succeed. -/
theorem searchEvent_of_match {l : List Char} {p : Nat × List Char}
    (h : matchEvent l = some p) : searchEvent l = true := by
  cases l with
  | nil =>
    have hnone : matchEvent [] = none := by decide
    rw [hnone] at h
    cases h
  | cons x t =>
    rw [searchEvent, h]
    rfl

/-- Claim C7 as amended: discovery produces a candidate exactly from the
site-relative hrefs that begin with `/rommelmarkt/<digits>/<slug>` — the id
and slug are extracted and the emitted URL is the base URL prepended to the
href (hence absolute) — while an href that does not start with `/` (in
particular any absolute URL) never yields a candidate, because the anchored
match requires the leading `/rommelmarkt/`. -/
theorem C7_amended_relative_only :
    (∀ (base ds : List Char) (c : Char) (cs : List Char),
        (∀ ch ∈ ds, ch.isDigit = true) → ds ≠ [] → (c != '\n') = true →
          processHref base (eventRoute ++ (ds ++ '/' :: c :: cs)) =
            some ⟨digitsToNat ds, c :: cs.takeWhile (fun x => x != '\n'),
              base ++ (eventRoute ++ (ds ++ '/' :: c :: cs))⟩) ∧
      (∀ base href : List Char, hrefIsRel href = false → processHref base href = none) := by
  constructor
  · intro base ds c cs hds hne hc
    have hm := matchEvent_rel ds c cs hds hne hc
    have hs := searchEvent_of_match hm
    have hrel : hrefIsRel (eventRoute ++ (ds ++ '/' :: c :: cs)) = true := rfl
    rw [processHref, if_pos hs, hm]
    simp [hrel]
  · intro base href hrel
    by_cases hse : searchEvent href = true
    · rw [processHref, if_pos hse]
      cases hm : matchEvent href with
      | none => rfl
      | some p =>
        rw [matchEvent_rel_href hm] at hrel
        cases hrel
    · rw [processHref, if_neg hse]

/-- Witness for the amended C7 at the href `/rommelmarkt/42/foo`. -/
theorem C7_amended_relative_only_witness :
    processHref baseRMB (eventRoute ++ (['4', '2'] ++ '/' :: 'f' :: "oo".data)) =
      some ⟨digitsToNat ['4', '2'], 'f' :: "oo".data.takeWhile (fun x => x != '\n'),
        baseRMB ++ (eventRoute ++ (['4', '2'] ++ '/' :: 'f' :: "oo".data))⟩ :=
  C7_amended_relative_only.1 baseRMB ['4', '2'] 'f' "oo".data (by decide) (by decide)
    (by decide)

/-! ## Backtracking pattern engine

The date and time extractors of `src/src/scraper/detail_scraper.py` use
`re.search` with star-free patterns (alternations, bounded digit counters,
whitespace runs and character-class runs).  A matcher is modelled as the
ordered list of its candidate parses at one position — preference order is
exactly the regex backtracking order (alternatives left to right, greedy
quantifiers longest first) — and `re.search` takes the first candidate at
the leftmost position that yields one. -/

/-- Candidate parses of a pattern piece at one position, in preference order. -/
def Cands (α : Type) : Type := List Char → List (α × List Char)

/-- Sequencing of pattern pieces; candidate order is the backtracking order. -/
def cbind {α β : Type} (m : Cands α) (f : α → Cands β) : Cands β :=
  fun s => (m s).flatMap (fun p => f p.1 p.2)

/-- Empty pattern piece. -/
def cpure {α : Type} (a : α) : Cands α := fun s => [(a, s)]

/-- Case-insensitive literal-token match, returning the consumed original
characters (re.IGNORECASE over the ASCII range). -/
def litCIGo : List Char → List Char → Option (List Char × List Char)
  | [], s => some ([], s)
  | _ :: _, [] => none
  | t :: ts, c :: cs =>
    if lowerChar c = lowerChar t then (litCIGo ts cs).map (fun p => (c :: p.1, p.2))
    else none

/-- Case-insensitive literal token as a pattern piece. -/
def litCI (tok : List Char) : Cands (List Char) := fun s =>
  match litCIGo tok s with
  | some p => [p]
  | none => []

/-- Ordered alternation of literal tokens (`a|b|...` tried left to right). -/
def altToks (toks : List (List Char)) : Cands (List Char) :=
  fun s => toks.flatMap (fun t => litCI t s)

/-- Single character satisfying a class test. -/
def oneIf (p : Char → Bool) : Cands Char := fun s =>
  match s with
  | [] => []
  | c :: cs => if p c then [(c, cs)] else []

/-- Exactly `n` digits (`\d{n}`, ASCII digits). -/
def digitN : Nat → Cands (List Char)
  | 0 => cpure []
  | n + 1 => cbind (oneIf Char.isDigit) (fun c => cbind (digitN n) (fun cs => cpure (c :: cs)))

/-- Greedy `\d{1,2}`: two digits preferred over one. -/
def digits12 : Cands (List Char) := fun s => digitN 2 s ++ digitN 1 s

/-- Candidates that drop `k, k-1, ..., 1` characters, in that order. -/
def dropKCands : Nat → List Char → List (Unit × List Char)
  | 0, _ => []
  | k + 1, s => ((), s.drop (k + 1)) :: dropKCands k s

/-- Greedy one-or-more run of class characters (`[..]+` / `\s+`): the
candidates consume the maximal run down to a single character. -/
def runPlus (p : Char → Bool) : Cands Unit :=
  fun s => dropKCands (s.takeWhile p).length s

/-- Greedy zero-or-more run (`\s*`): maximal run down to the empty match. -/
def runStar (p : Char → Bool) : Cands Unit :=
  fun s => dropKCands (s.takeWhile p).length s ++ [((), s)]

/-- Characters matched by regex `\s` (ASCII subset of Unicode whitespace). -/
def isReSpace (c : Char) : Bool :=
  c == ' ' || c == '\t' || c == '\n' || c == '\r' || c == '\x0b' || c == '\x0c'

/-- Leftmost search: first position (scanning left to right) whose first
candidate parse succeeds, as `re.search` does for a backtracking engine. -/
def searchCands {α : Type} (m : Cands α) : List Char → Option α
  | [] => ((m []).head?).map Prod.fst
  | c :: t =>
    match ((m (c :: t)).head?).map Prod.fst with
    | some a => some a
    | none => searchCands m t

/-! ## Date extraction — `DetailScraper._extract_datum`

Pattern: `(?:ma|di|wo|do|vr|za|zo|maandag|...|zondag)\s+(\d{1,2})\s+`
`(jan(?:uari)?|feb(?:ruari)?|mrt|mar(?:t)?|...|dec(?:ember)?)\s+(\d{4})`,
case-insensitive, searched in the page text; then the captured month token is
lower-cased and looked up in `DUTCH_MONTHS`, and `datetime.date` is built,
`ValueError` (invalid calendar date) giving `None`. -/

/-- Weekday alternatives in the pattern's order. -/
def weekdayToks : List (List Char) :=
  (["ma", "di", "wo", "do", "vr", "za", "zo", "maandag", "dinsdag", "woensdag",
    "donderdag", "vrijdag", "zaterdag", "zondag"]).map String.data

/-- Month alternatives flattened in the pattern's alternation order, each
optional-suffix group expanded greedily (longer form first). -/
def monthToks : List (List Char) :=
  (["januari", "jan", "februari", "feb", "mrt", "mart", "mar", "april", "apr",
    "mei", "juni", "jun", "juli", "jul", "augustus", "aug", "september", "sept",
    "sep", "oktober", "okt", "oct", "november", "nov", "december", "dec"]).map
    String.data

/-- Whole date pattern at one position: weekday, spaces, day digits, spaces,
month token, spaces, four-digit year; captures (day, month token, year). -/
def dateCore : Cands (List Char × List Char × List Char) :=
  cbind (altToks weekdayToks) (fun _ =>
    cbind (runPlus isReSpace) (fun _ =>
      cbind digits12 (fun d =>
        cbind (runPlus isReSpace) (fun _ =>
          cbind (altToks monthToks) (fun m =>
            cbind (runPlus isReSpace) (fun _ =>
              cbind (digitN 4) (fun y =>
                cpure (d, m, y))))))))

/-- The `DUTCH_MONTHS` dictionary of `detail_scraper.py`. -/
def dutchMonths : List (String × Nat) :=
  [("januari", 1), ("jan", 1), ("februari", 2), ("feb", 2), ("maart", 3),
   ("mrt", 3), ("mar", 3), ("april", 4), ("apr", 4), ("mei", 5), ("juni", 6),
   ("jun", 6), ("juli", 7), ("jul", 7), ("augustus", 8), ("aug", 8),
   ("september", 9), ("sep", 9), ("sept", 9), ("oktober", 10), ("okt", 10),
   ("oct", 10), ("november", 11), ("nov", 11), ("december", 12), ("dec", 12)]

/-- Calendar date value (`datetime.date` result). -/
structure PyDate where
  year : Nat
  month : Nat
  day : Nat
deriving DecidableEq, Repr

/-- Gregorian leap-year rule used by `datetime.date`. -/
def isLeap (y : Nat) : Bool := y % 4 == 0 && (y % 100 != 0 || y % 400 == 0)

/-- Length of a month, `datetime`'s calendar. -/
def daysInMonth (y m : Nat) : Nat :=
  if m = 2 then (if isLeap y then 29 else 28)
  else if m = 4 ∨ m = 6 ∨ m = 9 ∨ m = 11 then 30
  else 31

/-- Validity domain of the `datetime.date` constructor (`ValueError` outside). -/
def validDate (y m d : Nat) : Bool :=
  1 ≤ y && y ≤ 9999 && 1 ≤ m && m ≤ 12 && 1 ≤ d && d ≤ daysInMonth y m

/-- Model of `DetailScraper._extract_datum` on the page text: search the date
pattern, look the lower-cased month token up in `DUTCH_MONTHS`, and build the
date only when it is a valid calendar date. -/
def extractDatum (text : List Char) : Option PyDate :=
  match searchCands dateCore text with
  | none => none
  | some (d, m, y) =>
    let day := digitsToNat d
    let monthStr := String.mk (m.map lowerChar)
    let year := digitsToNat y
    match List.lookup monthStr dutchMonths with
    | some mo => if validDate year mo day then some ⟨year, mo, day⟩ else none
    | none => none

/-! ## Time extraction — `DetailScraper._extract_times`

Pattern: `(\d{1,2}[:.]\d{2})\s*[-–tot]+\s*(\d{1,2}[:.]\d{2})`; the character
class `[-–tot]` is the set of characters hyphen, en-dash, `t`, `o`.  On a
match, `'.'` is replaced by `':'` in both captures and `[start, end]` is
returned; otherwise the empty list. -/

/-- One `\d{1,2}[:.]\d{2}` time group, returning the captured characters. -/
def timeGroup : Cands (List Char) :=
  cbind digits12 (fun a =>
    cbind (oneIf (fun c => c == ':' || c == '.')) (fun sep =>
      cbind (digitN 2) (fun b =>
        cpure (a ++ sep :: b))))

/-- Characters of the `[-–tot]` class. -/
def isSepChar (c : Char) : Bool := c == '-' || c == '–' || c == 't' || c == 'o'

/-- Whole times pattern: two time groups around `\s*[-–tot]+\s*`. -/
def timesCore : Cands (List Char × List Char) :=
  cbind timeGroup (fun a =>
    cbind (runStar isReSpace) (fun _ =>
      cbind (runPlus isSepChar) (fun _ =>
        cbind (runStar isReSpace) (fun _ =>
          cbind timeGroup (fun b =>
            cpure (a, b))))))

/-- The `'.'` → `':'` normalization applied to each captured group. -/
def dotToColon (c : Char) : Char := if c = '.' then ':' else c

/-- Model of `DetailScraper._extract_times`: either both captures,
normalized, or the empty list. -/
def extractTimes (text : List Char) : List (List Char) :=
  match searchCands timesCore text with
  | some (a, b) => [a.map dotToColon, b.map dotToColon]
  | none => []

/-- Model of `DetailScraper._extract_start_tijd`: `times[0] if times else None`. -/
def extractStartTijd (text : List Char) : Option (List Char) :=
  (extractTimes text).head?

/-- Model of `DetailScraper._extract_eind_tijd`: `times[1] if len(times) > 1 else None`. -/
def extractEindTijd (text : List Char) : Option (List Char) :=
  (extractTimes text).get? 1

/-- Claim C8: date extraction — text containing `"za 7 feb 2026"` yields the
calendar date 2026-02-07; `"zo 30 feb 2026"` names no valid calendar date and
yields no date; and in general every date the extractor ever returns passed
the calendar-validity check, the invalid-date `ValueError` being caught. -/
theorem C8_date_extraction :
    extractDatum "za 7 feb 2026".data = some ⟨2026, 2, 7⟩ ∧
      extractDatum "zo 30 feb 2026".data = none ∧
      ∀ (t : List Char) (d : PyDate), extractDatum t = some d →
        validDate d.year d.month d.day = true := by
  refine ⟨by decide, by decide, ?_⟩
  intro t d h
  rw [extractDatum] at h
  split at h
  · cases h
  · dsimp only at h
    split at h
    · split at h
      · cases h
        assumption
      · cases h
    · cases h

/-- Claim C10: the extracted start time is present exactly when the extracted
end time is: `_extract_times` returns either nothing or a start-end pair, so
`times[0]` and `times[1]` exist together. -/
theorem C10_start_iff_end :
    ∀ t : List Char, (extractStartTijd t).isSome = (extractEindTijd t).isSome := by
  intro t
  rw [extractStartTijd, extractEindTijd, extractTimes]
  cases hsc : searchCands timesCore t with
  | none => rfl
  | some p =>
    obtain ⟨a, b⟩ := p
    rfl

/-- Witness for C8's general validity clause at the sample text. -/
theorem C8_date_extraction_witness :
    validDate (PyDate.mk 2026 2 7).year (PyDate.mk 2026 2 7).month
      (PyDate.mk 2026 2 7).day = true :=
  C8_date_extraction.2.2 "za 7 feb 2026".data ⟨2026, 2, 7⟩ (by decide)

/-! ## Type badges — `DetailScraper._extract_types`

`find_all(['span', 'a', 'div'], class_=re.compile(r'badge|btn|theme|tag|label|category', re.I))`
collects badge-style elements; each element's stripped text is lower-cased,
kept when it equals or contains a known market-type term, and appended as
`text.title()`; finally the list is deduplicated on `t.lower()` keeping first
occurrences.  An element is modelled by its tag name, its class tokens, and
its `get_text(strip=True)` result. -/

/-- One markup element as seen by the types extractor. -/
structure PageElem where
  tag : String
  classes : List String
  text : String
deriving DecidableEq, Repr

/-- The class-attribute keywords of the badge filter. -/
def classKeywords : List String := ["badge", "btn", "theme", "tag", "label", "category"]

/-- The `known_types` vocabulary (all lower-case in the source). -/
def knownTypes : List String :=
  ["rommelmarkt", "binnenrommelmarkt", "buitenrommelmarkt", "antiekbeurs",
   "brocante beurs", "brocantebeurs", "kinderrommelmarkt", "tweedehandsmarkt",
   "vlooienmarkt", "verzamelbeurs", "curiosamarkt", "garageverkoop"]

/-- Leading-match test for `hasSub`. -/
def startsList : List Char → List Char → Bool
  | [], _ => true
  | _ :: _, [] => false
  | k :: ks, c :: cs => k == c && startsList ks cs

/-- Substring containment (Python `key in s`). -/
def hasSub (key : List Char) : List Char → Bool
  | [] => key.isEmpty
  | c :: t => startsList key (c :: t) || hasSub key t

/-- Case-insensitive regex search of the class keywords in one class token. -/
def classMatches (cls : String) : Bool :=
  classKeywords.any (fun k => hasSub k.data (cls.data.map lowerChar))

/-- The `find_all` element filter: span/a/div tag and a class token matched
by the badge regex (BeautifulSoup matches a multi-valued class attribute
against each token). -/
def elemIsBadge (el : PageElem) : Bool :=
  (el.tag == "span" || el.tag == "a" || el.tag == "div") && el.classes.any classMatches

/-- ASCII model of `str.lower` on a whole string. -/
def lowerStr (s : String) : String := String.mk (s.data.map lowerChar)

/-- Title-casing walk: a letter is upper-cased after a non-cased character
and lower-cased after a cased one (ASCII model of `str.title`). -/
def titleGo : Bool → List Char → List Char
  | _, [] => []
  | prevAlpha, c :: cs =>
    if isAsciiAlpha c then
      (if prevAlpha then lowerChar c else upperChar c) :: titleGo true cs
    else c :: titleGo false cs

/-- ASCII model of Python `str.title`. -/
def pyTitle (s : String) : String := String.mk (titleGo false s.data)

/-- Collection pass of `_extract_types`: badge elements whose lower-cased
text equals or contains a known type term contribute `text.title()`. -/
def collectTypes (elems : List PageElem) : List String :=
  elems.filterMap (fun el =>
    if elemIsBadge el then
      if knownTypes.any (fun kt => lowerStr el.text == kt) ||
          knownTypes.any (fun kt => hasSub kt.data (lowerStr el.text).data) then
        some (pyTitle (lowerStr el.text))
      else none
    else none)

/-- Deduplication on `t.lower()` keeping first occurrences. -/
def dedupLowerGo (seen : List String) : List String → List String
  | [] => []
  | t :: ts =>
    if seen.contains (lowerStr t) then dedupLowerGo seen ts
    else t :: dedupLowerGo (lowerStr t :: seen) ts

/-- Model of `DetailScraper._extract_types`. -/
def extractTypes (elems : List PageElem) : List String :=
  dedupLowerGo [] (collectTypes elems)

/-- Claim C9, counterexample: a badge element displayed as `"ROMMELMARKT"`
is retained as `"Rommelmarkt"` — the element text is lower-cased and then
title-cased, so the first-seen display casing is not preserved. -/
theorem C9_casing_counterexample :
    extractTypes [⟨"span", ["badge"], "ROMMELMARKT"⟩] = ["Rommelmarkt"] ∧
      extractTypes [⟨"span", ["badge"], "ROMMELMARKT"⟩] ≠ ["ROMMELMARKT"] := by
  exact ⟨by decide, by decide⟩

/-- Entries kept by the case-insensitive deduplication were unseen. -/
theorem dedupLower_mem_not_seen :
    ∀ (ls : List String) (seen : List String) (t : String),
      t ∈ dedupLowerGo seen ls → seen.contains (lowerStr t) = false := by
  intro ls
  induction ls with
  | nil => intro seen t h; simp [dedupLowerGo] at h
  | cons x xs ih =>
    intro seen t h
    rw [dedupLowerGo] at h
    by_cases hx : seen.contains (lowerStr x) = true
    · rw [if_pos hx] at h
      exact ih seen t h
    · rw [if_neg hx] at h
      rcases List.mem_cons.mp h with h1 | h2
      · subst h1
        simpa using hx
      · have h3 := ih (lowerStr x :: seen) t h2
        rw [List.contains_cons] at h3
        exact (Bool.or_eq_false_iff.mp h3).2

/-- No two entries of the deduplicated output agree after lower-casing. -/
theorem dedupLower_pairwise :
    ∀ (ls : List String) (seen : List String),
      List.Pairwise (fun a b => lowerStr a ≠ lowerStr b) (dedupLowerGo seen ls) := by
  intro ls
  induction ls with
  | nil => intro seen; simp [dedupLowerGo]
  | cons x xs ih =>
    intro seen
    rw [dedupLowerGo]
    by_cases hx : seen.contains (lowerStr x) = true
    · rw [if_pos hx]
      exact ih seen
    · rw [if_neg hx]
      refine List.Pairwise.cons ?_ (ih _)
      intro y hy hxy
      have h3 := dedupLower_mem_not_seen xs (lowerStr x :: seen) y hy
      rw [List.contains_cons, hxy] at h3
      simp at h3

/-- The deduplicated output only contains collected entries. -/
theorem dedupLower_subset :
    ∀ (ls : List String) (seen : List String) (t : String),
      t ∈ dedupLowerGo seen ls → t ∈ ls := by
  intro ls
  induction ls with
  | nil => intro seen t h; simp [dedupLowerGo] at h
  | cons x xs ih =>
    intro seen t h
    rw [dedupLowerGo] at h
    by_cases hx : seen.contains (lowerStr x) = true
    · rw [if_pos hx] at h
      exact List.mem_cons_of_mem _ (ih seen t h)
    · rw [if_neg hx] at h
      rcases List.mem_cons.mp h with h1 | h2
      · exact h1 ▸ List.mem_cons_self _ _
      · exact List.mem_cons_of_mem _ (ih _ t h2)

/-- Claim C9 as amended: the extracted types list never contains two entries
equal ignoring case, and every retained entry is the title-cased form of a
matching badge element's lower-cased text (the first matching occurrence
determines presence and order) — the original display casing of the page is
not preserved. -/
theorem C9_amended_types :
    (∀ elems : List PageElem,
        List.Pairwise (fun a b => lowerStr a ≠ lowerStr b) (extractTypes elems)) ∧
      (∀ (elems : List PageElem) (t : String), t ∈ extractTypes elems →
        ∃ el, el ∈ elems ∧ elemIsBadge el = true ∧ t = pyTitle (lowerStr el.text)) := by
  constructor
  · intro elems
    exact dedupLower_pairwise _ _
  · intro elems t hmem
    have hcol : t ∈ collectTypes elems := dedupLower_subset _ _ _ hmem
    rcases List.mem_filterMap.mp hcol with ⟨el, hel, hf⟩
    refine ⟨el, hel, ?_⟩
    by_cases hb : elemIsBadge el = true
    · rw [if_pos hb] at hf
      by_cases hv : (knownTypes.any (fun kt => lowerStr el.text == kt) ||
          knownTypes.any (fun kt => hasSub kt.data (lowerStr el.text).data)) = true
      · rw [if_pos hv] at hf
        cases hf
        exact ⟨hb, rfl⟩
      · rw [if_neg hv] at hf
        cases hf
    · rw [if_neg hb] at hf
      cases hf

/-- Witness for the amended C9 at a single upper-case badge element. -/
theorem C9_amended_types_witness :
    ∃ el, el ∈ [PageElem.mk "span" ["badge"] "ROMMELMARKT"] ∧ elemIsBadge el = true ∧
      "Rommelmarkt" = pyTitle (lowerStr el.text) :=
  C9_amended_types.2 [⟨"span", ["badge"], "ROMMELMARKT"⟩] "Rommelmarkt" (by decide)

/-! ## Storage — src/src/storage/database.py and src/src/models/event.py

The `events` table has the primary-key `id`, eighteen extracted columns, and
two timestamp columns `first_scraped_at` / `last_updated_at`, both defaulting
to `CURRENT_TIMESTAMP` on insert.  `upsert_event` checks existence, then
either runs an `UPDATE` that sets all eighteen extracted columns plus
`last_updated_at = CURRENT_TIMESTAMP` (and does not touch
`first_scraped_at`), or an `INSERT` of the eighteen columns with both
timestamp defaults.  Serialization notes for the model: `datum` is stored
via `isoformat()` (modelled by the injective `PyDate` value), `types` via
`json.dumps` (modelled by the list itself; the `if event.types else '[]'`
branch stores the same text as `json.dumps([])` for the empty list), and the
`Decimal` prices via `float()` (modelled by the exact rational value).
`CURRENT_TIMESTAMP` is modelled by an explicit clock argument `now`. -/

/-- The `Event` pydantic model (extraction output). -/
structure Event where
  id : Nat
  naam : String
  gemeente : Option String
  postcode : Option String
  adres : Option String
  locatie_naam : Option String
  datum : Option PyDate
  start_tijd : Option String
  eind_tijd : Option String
  types : List String
  inkom_prijs : Option Rat
  standplaats_prijs : Option Rat
  organisator : Option String
  telefoon : Option String
  email : Option String
  website : Option String
  beschrijving : Option String
  afbeelding_url : Option String
  source_url : String
deriving DecidableEq, Repr

/-- The eighteen extracted (non-key, non-timestamp) columns of one row. -/
structure StoredFields where
  naam : String
  gemeente : Option String
  postcode : Option String
  adres : Option String
  locatie_naam : Option String
  datum : Option PyDate
  start_tijd : Option String
  eind_tijd : Option String
  types : List String
  inkom_prijs : Option Rat
  standplaats_prijs : Option Rat
  organisator : Option String
  telefoon : Option String
  email : Option String
  website : Option String
  beschrijving : Option String
  afbeelding_url : Option String
  source_url : String
deriving DecidableEq, Repr

/-- The column values bound by both the `UPDATE` parameter list and
`Event.to_db_tuple` — the same serialization expressions in both paths. -/
def storedFields (e : Event) : StoredFields :=
  { naam := e.naam, gemeente := e.gemeente, postcode := e.postcode,
    adres := e.adres, locatie_naam := e.locatie_naam, datum := e.datum,
    start_tijd := e.start_tijd, eind_tijd := e.eind_tijd, types := e.types,
    inkom_prijs := e.inkom_prijs, standplaats_prijs := e.standplaats_prijs,
    organisator := e.organisator, telefoon := e.telefoon, email := e.email,
    website := e.website, beschrijving := e.beschrijving,
    afbeelding_url := e.afbeelding_url, source_url := e.source_url }

/-- One row of the `events` table. -/
structure Row where
  id : Nat
  fields : StoredFields
  first_scraped_at : Nat
  last_updated_at : Nat
deriving DecidableEq, Repr

/-- Model of `Database.event_exists`: `SELECT 1 FROM events WHERE id = ?`. -/
def eventExists (db : List Row) (i : Nat) : Bool := db.any (fun r => r.id == i)

/-- Row view by id (`SELECT * FROM events WHERE id = ?`, first row). -/
def dbLookup (db : List Row) (i : Nat) : Option Row := db.find? (fun r => r.id == i)

/-- Model of `Database.upsert_event`: existence check, then `UPDATE` of all
extracted columns plus `last_updated_at` for the matching id, or `INSERT`
with both timestamps defaulted to the current time. -/
def upsertEvent (now : Nat) (db : List Row) (e : Event) : List Row :=
  if eventExists db e.id then
    db.map (fun r =>
      if r.id == e.id then
        { r with fields := storedFields e, last_updated_at := now }
      else r)
  else
    db ++ [{ id := e.id, fields := storedFields e,
             first_scraped_at := now, last_updated_at := now }]

/-! ## Lemmas about upsert -/

/-- A row found by id means the existence check succeeds. -/
theorem eventExists_of_lookup_some :
    ∀ (db : List Row) (i : Nat) (r : Row), dbLookup db i = some r → eventExists db i = true := by
  intro db i r
  induction db with
  | nil => intro h; cases h
  | cons x t ih =>
    intro h
    rw [dbLookup] at h
    rw [eventExists, List.any_cons]
    by_cases hx : (x.id == i) = true
    · rw [hx]
      rfl
    · have hfx : (x.id == i) = false := by simpa using hx
      simp only [List.find?_cons, hfx] at h
      rw [hfx]
      simp only [Bool.false_or]
      exact ih h

/-- No row found by id means the existence check fails. -/
theorem eventExists_of_lookup_none :
    ∀ (db : List Row) (i : Nat), dbLookup db i = none → eventExists db i = false := by
  intro db i
  induction db with
  | nil => intro _; rfl
  | cons x t ih =>
    intro h
    rw [dbLookup] at h
    rw [eventExists, List.any_cons]
    by_cases hx : (x.id == i) = true
    · simp only [List.find?_cons, hx] at h
      cases h
    · have hfx : (x.id == i) = false := by simpa using hx
      simp only [List.find?_cons, hfx] at h
      rw [hfx]
      simp only [Bool.false_or]
      exact ih h

/-- Effect of the `UPDATE` row transformer on the row found for the same id. -/
theorem dbLookup_update_hit (e : Event) (now : Nat) :
    ∀ db : List Row,
      dbLookup (db.map (fun r => if r.id == e.id then
          { r with fields := storedFields e, last_updated_at := now } else r)) e.id =
        (dbLookup db e.id).map
          (fun r => { r with fields := storedFields e, last_updated_at := now }) := by
  intro db
  induction db with
  | nil => rfl
  | cons x t ih =>
    rw [List.map_cons, dbLookup, dbLookup]
    by_cases hx : (x.id == e.id) = true
    · rw [if_pos hx]
      simp only [List.find?_cons, hx]
      rfl
    · have hfx : (x.id == e.id) = false := by simpa using hx
      rw [if_neg hx]
      simp only [List.find?_cons, hfx]
      exact ih

/-- The `UPDATE` row transformer leaves every other id's view unchanged. -/
theorem dbLookup_update_miss (e : Event) (now : Nat) (j : Nat) (hj : j ≠ e.id) :
    ∀ db : List Row,
      dbLookup (db.map (fun r => if r.id == e.id then
          { r with fields := storedFields e, last_updated_at := now } else r)) j =
        dbLookup db j := by
  intro db
  induction db with
  | nil => rfl
  | cons x t ih =>
    rw [List.map_cons, dbLookup, dbLookup]
    by_cases hx : (x.id == e.id) = true
    · have hxe : x.id = e.id := by simpa using hx
      have hxj : (x.id == j) = false := by
        rw [hxe]
        simpa using hj.symm
      rw [if_pos hx]
      simp only [List.find?_cons, hxj]
      exact ih
    · rw [if_neg hx]
      by_cases hxj : (x.id == j) = true
      · simp only [List.find?_cons, hxj]
      · have hfxj : (x.id == j) = false := by simpa using hxj
        simp only [List.find?_cons, hfxj]
        exact ih

/-- View of an append of one row through `dbLookup`. -/
theorem dbLookup_append_one :
    ∀ (db : List Row) (x : Row) (j : Nat),
      dbLookup (db ++ [x]) j =
        match dbLookup db j with
        | some r => some r
        | none => if x.id == j then some x else none := by
  intro db x j
  induction db with
  | nil =>
    rw [List.nil_append, dbLookup, dbLookup]
    by_cases hx : (x.id == j) = true
    · simp only [List.find?_cons, hx, List.find?_nil, if_pos hx]
      simp
    · have hfx : (x.id == j) = false := by simpa using hx
      simp only [List.find?_cons, hfx, List.find?_nil, if_neg hx]
      simp
  | cons h t ih =>
    rw [List.cons_append, dbLookup, dbLookup]
    by_cases hh : (h.id == j) = true
    · simp only [List.find?_cons, hh]
    · have hfh : (h.id == j) = false := by simpa using hh
      simp only [List.find?_cons, hfh]
      exact ih

/-- Claim C4: upsert of an already-stored id leaves `first_scraped_at`
unchanged, refreshes `last_updated_at` to the current time, and replaces
every extracted field with the new record's values, leaving every other id's
row untouched; on first insert the row carries the new record's fields and
both timestamps set to the current time. -/
theorem C4_upsert_semantics :
    (∀ (now : Nat) (db : List Row) (e : Event) (r : Row),
        dbLookup db e.id = some r →
          dbLookup (upsertEvent now db e) e.id =
            some { r with fields := storedFields e, last_updated_at := now } ∧
          ∀ j : Nat, j ≠ e.id → dbLookup (upsertEvent now db e) j = dbLookup db j) ∧
      (∀ (now : Nat) (db : List Row) (e : Event),
        dbLookup db e.id = none →
          dbLookup (upsertEvent now db e) e.id =
            some { id := e.id, fields := storedFields e,
                   first_scraped_at := now, last_updated_at := now } ∧
          ∀ j : Nat, j ≠ e.id → dbLookup (upsertEvent now db e) j = dbLookup db j) := by
  constructor
  · intro now db e r hr
    have hex := eventExists_of_lookup_some db e.id r hr
    rw [upsertEvent, if_pos hex]
    constructor
    · rw [dbLookup_update_hit, hr]
      rfl
    · intro j hj
      exact dbLookup_update_miss e now j hj db
  · intro now db e hn
    have hex := eventExists_of_lookup_none db e.id hn
    rw [upsertEvent, if_neg (by simp [hex])]
    constructor
    · rw [dbLookup_append_one, hn]
      simp
    · intro j hj
      rw [dbLookup_append_one]
      cases hdb : dbLookup db j with
      | some r => rfl
      | none =>
        have hne : (e.id == j) = false := by simpa using hj.symm
        simp [hne]

/-- Witness for C4: one update of an existing row and one fresh insert. -/
theorem C4_upsert_semantics_witness :
    (dbLookup
        (upsertEvent 9
          [Row.mk 42 (storedFields (Event.mk 42 "Oud" none none none none none none
            none [] none none none none none none none none "u")) 3 4]
          (Event.mk 42 "Nieuw" none none none none none none none [] none none
            none none none none none none "v")) 42 =
      some (Row.mk 42 (storedFields (Event.mk 42 "Nieuw" none none none none none
        none none [] none none none none none none none none "v")) 3 9)) ∧
      dbLookup (upsertEvent 5 []
          (Event.mk 7 "Vers" none none none none none none none [] none none
            none none none none none none "w")) 7 =
        some (Row.mk 7 (storedFields (Event.mk 7 "Vers" none none none none none
          none none [] none none none none none none none none "w")) 5 5) := by
  constructor
  · exact (C4_upsert_semantics.1 9
      [Row.mk 42 (storedFields (Event.mk 42 "Oud" none none none none none none
        none [] none none none none none none none none "u")) 3 4]
      (Event.mk 42 "Nieuw" none none none none none none none [] none none
        none none none none none none "v")
      (Row.mk 42 (storedFields (Event.mk 42 "Oud" none none none none none none
        none [] none none none none none none none none "u")) 3 4)
      (by decide)).1
  · exact (C4_upsert_semantics.2 5 []
      (Event.mk 7 "Vers" none none none none none none none [] none none
        none none none none none none "w") rfl).1

/-! ## Crawl reconciliation loop — src/main.py and
`DetailScraper.scrape_detail_page`

`main` walks the discovered candidates; for each, unless `--full-refresh` is
given, `db.event_exists(link.id)` decides a skip **before** any detail fetch.
Otherwise `scrape_detail_page(link.url, link.id)` fetches (returning `None`
on a failed or empty fetch) and runs the whole extraction inside
`try/except Exception`, any raised error producing one `None` for the page;
only a non-`None` event reaches `db.upsert_event`.  The extraction body is
abstracted as a parameter returning `Except` (an exception is `error`); the
network side effects are recorded as an explicit effect trace. -/

/-- Aggregate counters and store of the crawl (`main`'s statistics plus db). -/
structure CrawlState where
  db : List Row
  totalEvents : Nat
  newEvents : Nat
  updatedEvents : Nat
  skippedEvents : Nat
  failedEvents : Nat
deriving DecidableEq, Repr

/-- Observable side effects of one candidate: a detail-page fetch for an id,
or a store write for an id. -/
inductive CrawlEffect where
  | fetchDetail : List Char → Nat → CrawlEffect
  | dbWrite : Nat → CrawlEffect
deriving DecidableEq, Repr

/-- Store-write test on an effect. -/
def CrawlEffect.isWrite : CrawlEffect → Bool
  | .dbWrite _ => true
  | _ => false

/-- Model of `DetailScraper.scrape_detail_page`: fetch, `if not html` guard,
then the `try` body `ex` (an uncaught exception is `Except.error` and yields
`None` for the whole page). -/
def scrapeDetailPage (fetch : List Char → Option String)
    (ex : String → Nat → List Char → Except String Event)
    (url : List Char) (eventId : Nat) : Option Event :=
  match fetch url with
  | none => none
  | some html =>
    if html = "" then none
    else
      match ex html eventId url with
      | .ok e => some e
      | .error _ => none

/-- Model of one iteration of `main`'s per-candidate loop: count the
candidate; in incremental mode an id already in the store is skipped with no
fetch and no write; otherwise the detail page is fetched and extracted, a
produced event is upserted (classified update/new by a fresh existence
check), and a `None` result is counted as failed with no write. -/
def processCandidate (fullRefresh : Bool) (fetch : List Char → Option String)
    (ex : String → Nat → List Char → Except String Event)
    (now : Nat) (st : CrawlState) (link : EventLink) : CrawlState × List CrawlEffect :=
  let st1 := { st with totalEvents := st.totalEvents + 1 }
  if !fullRefresh && eventExists st1.db link.id then
    ({ st1 with skippedEvents := st1.skippedEvents + 1 }, [])
  else
    match scrapeDetailPage fetch ex link.url link.id with
    | some event =>
      let wasExisting := eventExists st1.db link.id
      let db2 := upsertEvent now st1.db event
      if wasExisting then
        ({ st1 with db := db2, updatedEvents := st1.updatedEvents + 1 },
         [CrawlEffect.fetchDetail link.url link.id, CrawlEffect.dbWrite event.id])
      else
        ({ st1 with db := db2, newEvents := st1.newEvents + 1 },
         [CrawlEffect.fetchDetail link.url link.id, CrawlEffect.dbWrite event.id])
    | none =>
      ({ st1 with failedEvents := st1.failedEvents + 1 },
       [CrawlEffect.fetchDetail link.url link.id])

/-- Claim C1: in incremental (non-full-refresh) mode, a candidate whose id
is already stored when it is considered produces an empty effect trace —
zero detail fetches and zero store writes — leaves the store unchanged, and
is counted as skipped; the existence check precedes any fetch. -/
theorem C1_incremental_skip (fetch : List Char → Option String)
    (ex : String → Nat → List Char → Except String Event)
    (now : Nat) (st : CrawlState) (link : EventLink)
    (h : eventExists st.db link.id = true) :
    processCandidate false fetch ex now st link =
      ({ st with totalEvents := st.totalEvents + 1,
                 skippedEvents := st.skippedEvents + 1 }, ([] : List CrawlEffect)) := by
  simp [processCandidate, h]

/-- Witness for C1: a one-row store already holding id 42. -/
theorem C1_incremental_skip_witness :
    processCandidate false (fun _ => none) (fun _ _ _ => Except.error "e") 0
        (CrawlState.mk [Row.mk 42 (storedFields (Event.mk 42 "E" none none none
          none none none none [] none none none none none none none none "s")) 1 1]
          0 0 0 0 0)
        (EventLink.mk 42 "a".data "u".data) =
      ({ CrawlState.mk [Row.mk 42 (storedFields (Event.mk 42 "E" none none none
          none none none none [] none none none none none none none none "s")) 1 1]
          0 0 0 0 0 with
         totalEvents := 0 + 1, skippedEvents := 0 + 1 }, ([] : List CrawlEffect)) :=
  C1_incremental_skip _ _ _ _ _ (by decide)

/-- Claim C5: a fetched page whose extraction body raises yields one `None`
for the whole page (no exception escapes the caller), and for such a
candidate the store is unchanged and the effect trace contains no write —
the upsert step is never reached. -/
theorem C5_extraction_failure_no_write (fetch : List Char → Option String)
    (ex : String → Nat → List Char → Except String Event)
    (fullRefresh : Bool) (now : Nat) (st : CrawlState) (link : EventLink)
    (html : String) (err : String)
    (h1 : fetch link.url = some html) (h2 : ex html link.id link.url = Except.error err) :
    scrapeDetailPage fetch ex link.url link.id = none ∧
      (processCandidate fullRefresh fetch ex now st link).1.db = st.db ∧
      ∀ eff ∈ (processCandidate fullRefresh fetch ex now st link).2,
        eff.isWrite = false := by
  have hscrape : scrapeDetailPage fetch ex link.url link.id = none := by
    rw [scrapeDetailPage, h1]
    dsimp only
    by_cases hh : html = ""
    · rw [if_pos hh]
    · rw [if_neg hh, h2]
  refine ⟨hscrape, ?_, ?_⟩
  · rw [processCandidate]
    by_cases hskip : (!fullRefresh && eventExists st.db link.id) = true
    · rw [if_pos hskip]
    · rw [if_neg hskip, hscrape]
  · rw [processCandidate]
    by_cases hskip : (!fullRefresh && eventExists st.db link.id) = true
    · rw [if_pos hskip]
      intro eff heff
      cases heff
    · rw [if_neg hskip, hscrape]
      intro eff heff
      rcases List.mem_cons.mp heff with h1 | h2
      · subst h1
        rfl
      · cases h2

/-- Witness for C5: a page that fetches but whose extraction raises. -/
theorem C5_extraction_failure_no_write_witness :
    scrapeDetailPage (fun _ => some "x") (fun _ _ _ => Except.error "boom")
        "u".data 7 = none ∧
      (processCandidate true (fun _ => some "x") (fun _ _ _ => Except.error "boom")
          0 (CrawlState.mk [] 0 0 0 0 0) (EventLink.mk 7 "s".data "u".data)).1.db =
        (CrawlState.mk [] 0 0 0 0 0).db ∧
      ∀ eff ∈ (processCandidate true (fun _ => some "x")
          (fun _ _ _ => Except.error "boom")
          0 (CrawlState.mk [] 0 0 0 0 0) (EventLink.mk 7 "s".data "u".data)).2,
        eff.isWrite = false :=
  C5_extraction_failure_no_write (fun _ => some "x") (fun _ _ _ => Except.error "boom")
    true 0 (CrawlState.mk [] 0 0 0 0 0) (EventLink.mk 7 "s".data "u".data)
    "x" "boom" rfl rfl
